import Mathlib

/-!
Verification of the videogen repository's caption-timing and compositing
pipeline, as a shallow embedding in Lean 4.

Conventions: Python floats are modelled as exact rationals (`ℚ`), Python
ints as `ℤ`/`ℕ`; Python `int(x)` (truncation toward zero) is `pyInt`.
Network calls and decoder behaviour are modelled as oracle parameters.
-/

namespace Videogen

/-! ### Constants from config.py -/

def VIDEO_WIDTH : ℕ := 1280
def VIDEO_HEIGHT : ℕ := 720
def FPS : ℕ := 24

/-- Python `int(x)`: truncation toward zero. -/
def pyInt (q : ℚ) : ℤ := if 0 ≤ q then ⌊q⌋ else ⌈q⌉

/-! ### Caption line timings: `VideoGenerator._calculate_line_timings`
(src/video_generator.py lines 759-793) -/

/-- Helper for `word_count_py`: counts maximal nonempty runs of
non-whitespace characters; the flag records whether the previous
character was part of a word. -/
def countWordsAux : List Char → Bool → ℕ
  | [], _ => 0
  | c :: cs, inWord =>
    if c.isWhitespace then countWordsAux cs false
    else (if inWord then 0 else 1) + countWordsAux cs true

/-- Python `len(text.split())`: the number of maximal nonempty runs of
non-whitespace characters. -/
def word_count_py (s : String) : ℕ :=
  countWordsAux s.data false

/-- One entry of the list returned by `_calculate_line_timings`:
the Python tuple `(text, seg_type, start, end)`. -/
structure LineTiming where
  text : String
  segType : String
  start : ℚ
  stop : ℚ
deriving DecidableEq, Repr

/-- Line 765: `total_words = sum(len(line[0].split()) for line in lines)`. -/
def total_words_of (lines : List (String × String)) : ℕ :=
  (lines.map (fun l => word_count_py l.1)).sum

/-- Lines 774-775: `word_count = max(len(text.split()), 1)` and
`line_duration = max(1.5, (word_count / total_words) * total_duration)`. -/
def tentative_line_duration (total_words : ℕ) (total_duration : ℚ) (text : String) : ℚ :=
  max (3/2) (((max (word_count_py text) 1 : ℕ) : ℚ) / (total_words : ℚ) * total_duration)

/-- Lines 777-778: clamp the tentative duration to the remaining time when
it would push `current_time` past `total_duration`. -/
def line_duration (total_words : ℕ) (total_duration current_time : ℚ) (text : String) : ℚ :=
  if current_time + tentative_line_duration total_words total_duration text > total_duration then
    total_duration - current_time
  else tentative_line_duration total_words total_duration text

/-- The per-line loop of `_calculate_line_timings` (lines 770-783):
walks the lines accumulating `current_time`, emitting an entry whenever
the (possibly clamped) `line_duration` is positive.  Returns the emitted
entries together with the final value of `current_time`. -/
def timingsLoop (total_words : ℕ) (total_duration : ℚ) :
    List (String × String) → ℚ → List LineTiming × ℚ
  | [], current_time => ([], current_time)
  | (text, seg_type) :: rest, current_time =>
    let ld := line_duration total_words total_duration current_time text
    let res := timingsLoop total_words total_duration rest (current_time + ld)
    (if 0 < ld then
       ⟨text, seg_type, current_time, current_time + ld⟩ :: res.1
     else res.1,
     res.2)

/-- `VideoGenerator._calculate_line_timings` (lines 759-793): word-count
proportional allocation with a 1.5 s floor, clamping at `total_duration`,
followed by a rescale of all starts/ends (line 786-791) when the
accumulated clock does not equal `total_duration`. -/
def calculate_line_timings (lines : List (String × String)) (total_duration : ℚ) :
    List LineTiming :=
  if total_words_of lines = 0 then []
  else
    let res := timingsLoop (total_words_of lines) total_duration lines 0
    if res.1 ≠ [] ∧ res.2 ≠ total_duration then
      res.1.map (fun e =>
        { e with start := e.start * (total_duration / res.2),
                 stop := e.stop * (total_duration / res.2) })
    else res.1

/-- `ChainFrom t fin ts` : the entries of `ts` form a contiguous sequence of
positive-duration intervals starting at `t` and ending at `fin` (each
entry's `stop` is the next entry's `start`). -/
def ChainFrom : ℚ → ℚ → List LineTiming → Prop
  | t, fin, [] => t = fin
  | t, fin, e :: rest => e.start = t ∧ t < e.stop ∧ ChainFrom e.stop fin rest

instance decChainFrom : ∀ (ts : List LineTiming) (t fin : ℚ), Decidable (ChainFrom t fin ts)
  | [], t, fin => inferInstanceAs (Decidable (t = fin))
  | e :: rest, t, fin =>
    haveI : Decidable (ChainFrom e.stop fin rest) := decChainFrom rest e.stop fin
    inferInstanceAs (Decidable (e.start = t ∧ t < e.stop ∧ ChainFrom e.stop fin rest))

/-- Every entry except possibly the last one has duration at least 1.5 s. -/
def MinFloorExceptLast : List LineTiming → Prop
  | [] => True
  | [_] => True
  | e :: f :: rest => (3/2 : ℚ) ≤ e.stop - e.start ∧ MinFloorExceptLast (f :: rest)

instance decMinFloorExceptLast : ∀ (ts : List LineTiming), Decidable (MinFloorExceptLast ts)
  | [] => inferInstanceAs (Decidable True)
  | [_] => inferInstanceAs (Decidable True)
  | e :: f :: rest =>
    haveI : Decidable (MinFloorExceptLast (f :: rest)) := decMinFloorExceptLast (f :: rest)
    inferInstanceAs (Decidable ((3/2 : ℚ) ≤ e.stop - e.start ∧ MinFloorExceptLast (f :: rest)))

example : word_count_py "Fix your sleep." = 3 := by decide

/-! #### Lemmas about the timing loop -/

theorem tentative_ge (tw : ℕ) (D : ℚ) (s : String) :
    (3/2 : ℚ) ≤ tentative_line_duration tw D s :=
  le_max_left _ _

theorem timingsLoop_cons (tw : ℕ) (D t : ℚ) (text seg_type : String)
    (rest : List (String × String)) :
    timingsLoop tw D ((text, seg_type) :: rest) t =
      (if 0 < line_duration tw D t text then
         ⟨text, seg_type, t, t + line_duration tw D t text⟩ ::
           (timingsLoop tw D rest (t + line_duration tw D t text)).1
       else (timingsLoop tw D rest (t + line_duration tw D t text)).1,
       (timingsLoop tw D rest (t + line_duration tw D t text)).2) := rfl

theorem line_duration_nonneg (tw : ℕ) (D t : ℚ) (s : String) (ht : t ≤ D) :
    0 ≤ line_duration tw D t s := by
  unfold line_duration
  split
  · linarith
  · linarith [tentative_ge tw D s]

theorem add_line_duration_le (tw : ℕ) (D t : ℚ) (s : String) (_ht : t ≤ D) :
    t + line_duration tw D t s ≤ D := by
  unfold line_duration
  split
  · linarith
  · next h => push_neg at h; linarith

/-- Once the clock has reached `total_duration`, the rest of the loop emits
nothing and leaves the clock unchanged. -/
theorem timingsLoop_at_D (tw : ℕ) (D : ℚ) :
    ∀ lines, timingsLoop tw D lines D = ([], D) := by
  intro lines
  induction lines with
  | nil => rfl
  | cons p rest ih =>
    obtain ⟨text, st⟩ := p
    have hld : line_duration tw D D text = 0 := by
      unfold line_duration
      split
      · ring
      · next h => exfalso; push_neg at h; linarith [tentative_ge tw D text]
    rw [timingsLoop_cons, hld]
    simp [ih]

theorem chainFrom_le : ∀ (ts : List LineTiming) (t fin : ℚ), ChainFrom t fin ts → t ≤ fin
  | [], _, _, h => le_of_eq h
  | e :: rest, _, fin, h => by
    obtain ⟨_, h2, h3⟩ := h
    exact le_trans (le_of_lt h2) (chainFrom_le rest e.stop fin h3)

theorem chainFrom_lt (ts : List LineTiming) (t fin : ℚ) (h : ChainFrom t fin ts)
    (hne : ts ≠ []) : t < fin := by
  cases ts with
  | nil => exact absurd rfl hne
  | cons e rest =>
    obtain ⟨_, h2, h3⟩ := h
    exact lt_of_lt_of_le h2 (chainFrom_le rest e.stop fin h3)

theorem chainFrom_getLast : ∀ (ts : List LineTiming) (t fin : ℚ), ChainFrom t fin ts →
    ts ≠ [] → ts.getLast?.map LineTiming.stop = some fin
  | [], _, _, _, hne => absurd rfl hne
  | [e], _, fin, h, _ => by
    obtain ⟨_, _, h3⟩ := h
    simpa [List.getLast?] using h3
  | e :: f :: rest, _, fin, h, _ => by
    obtain ⟨_, _, h3⟩ := h
    have hrec := chainFrom_getLast (f :: rest) e.stop fin h3 (by simp)
    simpa [List.getLast?_cons_cons] using hrec

theorem chainFrom_scale (c : ℚ) (hc : 0 < c) :
    ∀ (ts : List LineTiming) (t fin : ℚ), ChainFrom t fin ts →
      ChainFrom (t * c) (fin * c)
        (ts.map (fun e => { e with start := e.start * c, stop := e.stop * c }))
  | [], t, fin, h => by
    show t * c = fin * c
    rw [h]
  | e :: rest, t, fin, h => by
    obtain ⟨h1, h2, h3⟩ := h
    rw [List.map_cons]
    refine ⟨?_, ?_, ?_⟩
    · show e.start * c = t * c
      rw [h1]
    · show t * c < e.stop * c
      exact mul_lt_mul_of_pos_right h2 hc
    · show ChainFrom (e.stop * c) (fin * c) _
      exact chainFrom_scale c hc rest e.stop fin h3

theorem minFloor_cons (e : LineTiming) (ts : List LineTiming)
    (hd : (3/2 : ℚ) ≤ e.stop - e.start) (hts : MinFloorExceptLast ts) :
    MinFloorExceptLast (e :: ts) := by
  cases ts with
  | nil => trivial
  | cons f r => exact ⟨hd, hts⟩

theorem minFloor_scale (c : ℚ) (hc : 1 ≤ c) :
    ∀ ts, MinFloorExceptLast ts →
      MinFloorExceptLast (ts.map (fun e => { e with start := e.start * c, stop := e.stop * c }))
  | [], _ => trivial
  | [_], _ => trivial
  | e :: f :: rest, h => by
    obtain ⟨h1, h2⟩ := h
    refine ⟨?_, minFloor_scale c hc (f :: rest) h2⟩
    show (3/2 : ℚ) ≤ e.stop * c - e.start * c
    have hd0 : (0 : ℚ) ≤ e.stop - e.start := by linarith
    nlinarith

/-- Main invariant of the timing loop: starting from a clock `t ≤ D`,
the emitted entries chain contiguously from `t` to the final clock, the
final clock stays at most `D`, the loop emits at least one entry whenever
it starts strictly before `D` on a nonempty list, and all entries except
possibly the last have duration at least 1.5 s. -/
theorem timingsLoop_spec (tw : ℕ) (D : ℚ) :
    ∀ (lines : List (String × String)) (t : ℚ), t ≤ D →
      ChainFrom t (timingsLoop tw D lines t).2 (timingsLoop tw D lines t).1 ∧
      (timingsLoop tw D lines t).2 ≤ D ∧
      (t < D → lines ≠ [] → (timingsLoop tw D lines t).1 ≠ []) ∧
      MinFloorExceptLast (timingsLoop tw D lines t).1 := by
  intro lines
  induction lines with
  | nil =>
    intro t ht
    exact ⟨rfl, ht, fun _ h => absurd rfl h, trivial⟩
  | cons p rest ih =>
    obtain ⟨text, seg_type⟩ := p
    intro t ht
    have hld0 : 0 ≤ line_duration tw D t text := line_duration_nonneg tw D t text ht
    have hle : t + line_duration tw D t text ≤ D := add_line_duration_le tw D t text ht
    obtain ⟨ihChain, ihLe, _, ihMin⟩ := ih (t + line_duration tw D t text) hle
    by_cases hpos : 0 < line_duration tw D t text
    · rw [timingsLoop_cons, if_pos hpos]
      refine ⟨⟨rfl, by show t < t + line_duration tw D t text; linarith, ihChain⟩,
        ihLe, fun _ _ => by simp, ?_⟩
      by_cases hclamp : t + tentative_line_duration tw D text > D
      · have ht' : t + line_duration tw D t text = D := by
          unfold line_duration; rw [if_pos hclamp]; ring
        rw [ht', timingsLoop_at_D tw D rest]
        trivial
      · have hld : line_duration tw D t text = tentative_line_duration tw D text := by
          unfold line_duration; rw [if_neg hclamp]
        refine minFloor_cons _ _ ?_ ihMin
        show (3/2 : ℚ) ≤ t + line_duration tw D t text - t
        rw [hld]
        have := tentative_ge tw D text
        linarith
    · have hz : line_duration tw D t text = 0 := le_antisymm (not_lt.mp hpos) hld0
      have htD : t = D := by
        unfold line_duration at hz
        by_cases hclamp : t + tentative_line_duration tw D text > D
        · rw [if_pos hclamp] at hz; linarith
        · rw [if_neg hclamp] at hz
          exfalso
          have := tentative_ge tw D text
          linarith
      rw [timingsLoop_cons, if_neg hpos, hz, add_zero, htD, timingsLoop_at_D tw D rest]
      exact ⟨rfl, le_refl D, fun h _ => absurd h (lt_irrefl D), trivial⟩

/-- The two structural facts used by both claim theorems about
`_calculate_line_timings`: under a nonempty line list with positive total
word count and positive total duration, the returned sequence is a
nonempty contiguous chain of positive-duration intervals from `0` to
`total_duration`, and all entries except possibly the last respect the
1.5 s floor. -/
theorem calculate_line_timings_spec (lines : List (String × String)) (D : ℚ)
    (hne : lines ≠ []) (hw : 0 < total_words_of lines) (hD : 0 < D) :
    calculate_line_timings lines D ≠ [] ∧
    ChainFrom 0 D (calculate_line_timings lines D) ∧
    MinFloorExceptLast (calculate_line_timings lines D) := by
  have htw : total_words_of lines ≠ 0 := Nat.pos_iff_ne_zero.mp hw
  obtain ⟨hChain, hLe, hNe, hMin⟩ :=
    timingsLoop_spec (total_words_of lines) D lines 0 hD.le
  have hne1 : (timingsLoop (total_words_of lines) D lines 0).1 ≠ [] := hNe hD hne
  have hfinpos : 0 < (timingsLoop (total_words_of lines) D lines 0).2 :=
    chainFrom_lt _ _ _ hChain hne1
  unfold calculate_line_timings
  rw [if_neg htw]
  by_cases hfd : (timingsLoop (total_words_of lines) D lines 0).2 = D
  · rw [if_neg (by simp [hfd])]
    rw [hfd] at hChain
    exact ⟨hne1, hChain, hMin⟩
  · rw [if_pos ⟨hne1, hfd⟩]
    have hscale : 0 < D / (timingsLoop (total_words_of lines) D lines 0).2 :=
      div_pos hD hfinpos
    have hscale1 : 1 ≤ D / (timingsLoop (total_words_of lines) D lines 0).2 :=
      (one_le_div hfinpos).mpr hLe
    refine ⟨by simp [hne1], ?_, minFloor_scale _ hscale1 _ hMin⟩
    have := chainFrom_scale _ hscale _ _ _ hChain
    rw [zero_mul, mul_comm, div_mul_cancel₀ D (ne_of_gt hfinpos)] at this
    exact this

/-- C1: for every non-empty list of caption lines with positive total word
count and `total_duration > 0`, `_calculate_line_timings` returns a
nonempty sequence that is contiguous (each entry's `stop` is the next
entry's `start`), starts at `0`, ends at exactly `total_duration`, and in
which every entry has `stop - start > 0` — this is exactly
`ChainFrom 0 total_duration`; the first/last conjuncts restate the
endpoint facts explicitly. -/
theorem C1_timeline_coverage (lines : List (String × String)) (D : ℚ)
    (hne : lines ≠ []) (hw : 0 < total_words_of lines) (hD : 0 < D) :
    calculate_line_timings lines D ≠ [] ∧
    ChainFrom 0 D (calculate_line_timings lines D) ∧
    ((calculate_line_timings lines D).head?.map LineTiming.start = some 0) ∧
    ((calculate_line_timings lines D).getLast?.map LineTiming.stop = some D) := by
  obtain ⟨h1, h2, _⟩ := calculate_line_timings_spec lines D hne hw hD
  refine ⟨h1, h2, ?_, chainFrom_getLast _ _ _ h2 h1⟩
  cases hts : calculate_line_timings lines D with
  | nil => exact absurd hts h1
  | cons e rest =>
    rw [hts] at h2
    obtain ⟨hstart, _, _⟩ := h2
    simp [hstart]

/-- Witness for C1 at a concrete input: two caption lines, 9 seconds. -/
theorem C1_timeline_coverage_witness :
    calculate_line_timings [("a b", "hook"), ("c", "core")] 9 ≠ [] ∧
    ChainFrom 0 9 (calculate_line_timings [("a b", "hook"), ("c", "core")] 9) ∧
    ((calculate_line_timings [("a b", "hook"), ("c", "core")] 9).head?.map
      LineTiming.start = some 0) ∧
    ((calculate_line_timings [("a b", "hook"), ("c", "core")] 9).getLast?.map
      LineTiming.stop = some 9) :=
  C1_timeline_coverage [("a b", "hook"), ("c", "core")] 9
    (by decide) (by decide) (by norm_num)

/-- C5: in the sequence returned by `_calculate_line_timings`, every entry
except possibly the last has duration at least `MIN_LINE_SECONDS = 1.5`;
only the final entry may fall below the floor. -/
theorem C5_min_floor (lines : List (String × String)) (D : ℚ)
    (hne : lines ≠ []) (hw : 0 < total_words_of lines) (hD : 0 < D) :
    MinFloorExceptLast (calculate_line_timings lines D) :=
  (calculate_line_timings_spec lines D hne hw hD).2.2

/-- Witness for C5 at a concrete input: three caption lines, 4 seconds
(the floor forces clamping of the trailing line). -/
theorem C5_min_floor_witness :
    MinFloorExceptLast (calculate_line_timings
      [("one two", "hook"), ("three", "core"), ("four five six", "cta")] 4) :=
  C5_min_floor [("one two", "hook"), ("three", "core"), ("four five six", "cta")] 4
    (by decide) (by decide) (by norm_num)

/-! ### Translation: `Translator` (src/translator.py)

Network requests and response parsing are abstracted as an oracle whose
raw calls may raise (`Except.error`); each `_translate_methodN` wraps its
whole body in `try/except`, which the embedding models by mapping a
raised error to `none`. -/

/-- Python `pat in s` (substring containment), over the character list. -/
def hasSubstrAux (pat : List Char) : List Char → Bool
  | [] => pat.isEmpty
  | c :: rest => pat.isPrefixOf (c :: rest) || hasSubstrAux pat rest

/-- Python `pat in s` for strings. -/
def pyContains (s pat : String) : Bool := hasSubstrAux pat.data s.data

/-- Python `s.startswith(pat)`. -/
def pyStartsWith (s pat : String) : Bool := pat.data.isPrefixOf s.data

/-- Python `s.strip()`: drop leading and trailing whitespace. -/
def pyStrip (s : String) : String :=
  ⟨((s.data.dropWhile Char.isWhitespace).reverse.dropWhile Char.isWhitespace).reverse⟩

/-- The `VOICE_TO_LANGUAGE` table (src/translator.py lines 29-84). -/
def VOICE_TO_LANGUAGE : List (String × String) :=
  [("English - Male", "en"), ("English - Female", "en"),
   ("Hindi - Male", "hi"), ("Hindi - Female", "hi"),
   ("Kannada - Male", "kn"), ("Kannada - Female", "kn"),
   ("Spanish - Male", "es"), ("Spanish - Female", "es"),
   ("French - Male", "fr"), ("French - Female", "fr"),
   ("German - Male", "de"), ("German - Female", "de"),
   ("Portuguese - Male", "pt"), ("Portuguese - Female", "pt"),
   ("Italian - Male", "it"), ("Italian - Female", "it"),
   ("Japanese - Male", "ja"), ("Japanese - Female", "ja"),
   ("Korean - Male", "ko"), ("Korean - Female", "ko"),
   ("Chinese - Male", "zh-CN"), ("Chinese - Female", "zh-CN"),
   ("Arabic - Male", "ar"), ("Arabic - Female", "ar"),
   ("Russian - Male", "ru"), ("Russian - Female", "ru"),
   ("Dutch - Male", "nl"), ("Dutch - Female", "nl"),
   ("Turkish - Male", "tr"), ("Turkish - Female", "tr"),
   ("Polish - Male", "pl"), ("Polish - Female", "pl"),
   ("Swedish - Male", "sv"), ("Swedish - Female", "sv"),
   ("Norwegian - Male", "no"), ("Norwegian - Female", "no"),
   ("Danish - Male", "da"), ("Danish - Female", "da"),
   ("Tamil - Male", "ta"), ("Tamil - Female", "ta"),
   ("Telugu - Male", "te"), ("Telugu - Female", "te"),
   ("Bengali - Male", "bn"), ("Bengali - Female", "bn"),
   ("Marathi - Male", "mr"), ("Marathi - Female", "mr"),
   ("Gujarati - Male", "gu"), ("Gujarati - Female", "gu"),
   ("Punjabi - Male", "pa"), ("Punjabi - Female", "pa"),
   ("Malayalam - Male", "ml"), ("Malayalam - Female", "ml"),
   ("Indonesian - Male", "id"), ("Indonesian - Female", "id")]

/-- Python `dict.get(key, default)` over an association list. -/
def dictGet (d : List (String × String)) (k dflt : String) : String :=
  match d.find? (fun p => decide (p.1 = k)) with
  | some p => p.2
  | none => dflt

/-- `Translator.__init__` (lines 90-101): voice display names containing
`" - "` are resolved through `VOICE_TO_LANGUAGE` with default `"en"`;
anything else is taken as a language code directly. -/
def resolveTargetLanguage (target_language : String) : String :=
  if pyContains target_language " - " then
    dictGet VOICE_TO_LANGUAGE target_language "en"
  else target_language

/-- Abstraction of the three Google-Translate endpoints: a raw call either
raises (`Except.error`) or returns an optional translation (`none` models
a response that yields no usable translation). -/
structure TranslatorOracle where
  method1_raw : String → String → Except String (Option String)
  method2_raw : String → String → Except String (Option String)
  method3_raw : String → String → Except String (Option String)

/-- `Translator._translate_method1` (lines 109-133): the whole body is a
`try/except` returning `None` on any exception. -/
def translate_method1 (o : TranslatorOracle) (text target : String) : Option String :=
  match o.method1_raw text target with
  | .error _ => none
  | .ok r => r

/-- `Translator._translate_method2` (lines 135-157), same catch-all shape. -/
def translate_method2 (o : TranslatorOracle) (text target : String) : Option String :=
  match o.method2_raw text target with
  | .error _ => none
  | .ok r => r

/-- `Translator._translate_method3` (lines 159-174), same catch-all shape. -/
def translate_method3 (o : TranslatorOracle) (text target : String) : Option String :=
  match o.method3_raw text target with
  | .error _ => none
  | .ok r => r

/-- Python truthiness of an `Optional[str]`: `None` and `""` are falsy. -/
def truthy : Option String → Bool
  | none => false
  | some s => !s.data.isEmpty

/-- `Translator.translate` (lines 176-216), in the exception monad: the
result is `Except.error` exactly when the function would raise.  English
targets and blank texts return the input; otherwise the three methods are
tried in order and the first truthy result is returned, falling back to
the original text. -/
def Translator.translate (o : TranslatorOracle) (target_language text : String) :
    Except String String :=
  if pyStartsWith (resolveTargetLanguage target_language) "en" then .ok text
  else if text.data.isEmpty || (pyStrip text).data.isEmpty then .ok text
  else if truthy (translate_method1 o text (resolveTargetLanguage target_language)) then
    .ok ((translate_method1 o text (resolveTargetLanguage target_language)).getD text)
  else if truthy (translate_method2 o text (resolveTargetLanguage target_language)) then
    .ok ((translate_method2 o text (resolveTargetLanguage target_language)).getD text)
  else if truthy (translate_method3 o text (resolveTargetLanguage target_language)) then
    .ok ((translate_method3 o text (resolveTargetLanguage target_language)).getD text)
  else .ok text

/-- C8: `Translator.translate` never raises to its caller (its result is
always `Except.ok`), and whenever the (resolved) target language is
English or every translation method fails to produce a truthy result, it
returns the original input text unchanged. -/
theorem C8_translate_never_raises (o : TranslatorOracle) (target_language text : String) :
    (∃ s, Translator.translate o target_language text = Except.ok s) ∧
    (pyStartsWith (resolveTargetLanguage target_language) "en" = true ∨
     (truthy (translate_method1 o text (resolveTargetLanguage target_language)) = false ∧
      truthy (translate_method2 o text (resolveTargetLanguage target_language)) = false ∧
      truthy (translate_method3 o text (resolveTargetLanguage target_language)) = false) →
     Translator.translate o target_language text = Except.ok text) := by
  unfold Translator.translate
  constructor
  · split_ifs <;> exact ⟨_, rfl⟩
  · rintro (hen | ⟨h1, h2, h3⟩)
    · rw [if_pos hen]
    · split_ifs with hA hB <;> simp_all

/-- An oracle whose every raw call raises, modelling total network
failure. -/
def failingOracle : TranslatorOracle :=
  ⟨fun _ _ => .error "timeout", fun _ _ => .error "timeout", fun _ _ => .error "timeout"⟩

/-- Witness for C8: with every method failing and a Hindi target, the
original text comes back unchanged (and no exception escapes). -/
theorem C8_translate_never_raises_witness :
    Translator.translate failingOracle "hi" "hello world" = Except.ok "hello world" :=
  (C8_translate_never_raises failingOracle "hi" "hello world").2
    (Or.inr ⟨rfl, rfl, rfl⟩)

/-! ### Custom soundtrack volume: `generate_video` lines 554-565 -/

/-- An audio clip, abstracted to its duration and the cumulative gain
factor applied to its samples. -/
structure AudioClip where
  duration : ℚ
  gain : ℚ
deriving DecidableEq, Repr

/-- moviepy `audio_loop(clip, duration=d)`: repeat the clip to duration `d`. -/
def audio_loop (clip : AudioClip) (d : ℚ) : AudioClip := { clip with duration := d }

/-- moviepy `clip.subclip(0, t)` on audio. -/
def audio_subclip_to (clip : AudioClip) (t : ℚ) : AudioClip := { clip with duration := t }

/-- moviepy `clip.volumex(v)`: multiplies the gain by `v`. -/
def volumex (clip : AudioClip) (v : ℚ) : AudioClip := { clip with gain := clip.gain * v }

/-- Lines 557-564 of `generate_video`: loop or trim the custom soundtrack
to the narration duration, clamp the caller's `soundtrack_volume` into
`[0, 1]` (`volume = max(0.0, min(soundtrack_volume, 1.0))`), and apply it
with `volumex`. -/
def prepare_soundtrack (bg_audio : AudioClip) (audio_duration soundtrack_volume : ℚ) :
    AudioClip :=
  volumex
    (if bg_audio.duration < audio_duration then audio_loop bg_audio audio_duration
     else audio_subclip_to bg_audio audio_duration)
    (max 0 (min soundtrack_volume 1))

/-- C10: for every caller-supplied `soundtrack_volume`, including values
outside `[0, 1]`, the gain factor actually applied to the secondary
soundtrack is `max(0.0, min(soundtrack_volume, 1.0))` — a value always in
`[0, 1]` — rather than the raw value or a rejection. -/
theorem C10_volume_clamped (bg_audio : AudioClip) (audio_duration soundtrack_volume : ℚ) :
    (prepare_soundtrack bg_audio audio_duration soundtrack_volume).gain =
      bg_audio.gain * max 0 (min soundtrack_volume 1) ∧
    0 ≤ max (0 : ℚ) (min soundtrack_volume 1) ∧
    max (0 : ℚ) (min soundtrack_volume 1) ≤ 1 := by
  refine ⟨?_, le_max_left _ _, max_le zero_le_one (min_le_right _ _)⟩
  unfold prepare_soundtrack volumex audio_loop audio_subclip_to
  split <;> rfl

/-! ### Caption vertical layout: `create_subtitle_caption` lines 166-183 -/

/-- The vertical layout of the caption background box in
`create_subtitle_caption` (lines 166-183).  The word-wrapping step
(`textwrap.wrap`) is abstracted: the layout depends only on the wrapped
line list, so theorems quantifying over all wrapped line lists cover every
caption text and font size.  Returns `none` when there are no wrapped
lines (the function returns a fully transparent frame with no box),
otherwise `some (start_y, box_height)` where `start_y` is the top edge of
the box:
`box_height = len(wrapped_lines) * font_size * 1.3 + 25 * 2`,
`start_y = max(VIDEO_HEIGHT - box_height - 80, int(VIDEO_HEIGHT * 0.5))`. -/
def subtitle_caption_layout (wrapped_lines : List String) (font_size : ℚ) :
    Option (ℚ × ℚ) :=
  if wrapped_lines.isEmpty then none
  else
    some (max ((VIDEO_HEIGHT : ℚ) -
                ((wrapped_lines.length : ℚ) * (font_size * (13/10)) + 25 * 2) - 80)
              ((pyInt ((VIDEO_HEIGHT : ℚ) * (1/2)) : ℚ)),
          (wrapped_lines.length : ℚ) * (font_size * (13/10)) + 25 * 2)

/-- C9: whenever `create_subtitle_caption` draws a caption box, the box is
bottom-anchored with a fixed 80 px safety margin (when unclamped, its
bottom edge sits exactly 80 px above the bottom of the frame) and its top
edge `start_y` never lies above the vertical midpoint of the frame,
regardless of how many wrapped lines the text produces. -/
theorem C9_caption_vertical_clamp (wrapped_lines : List String) (font_size : ℚ)
    (sy bh : ℚ)
    (h : subtitle_caption_layout wrapped_lines font_size = some (sy, bh)) :
    (VIDEO_HEIGHT : ℚ) / 2 ≤ sy ∧
    ((VIDEO_HEIGHT : ℚ) / 2 ≤ (VIDEO_HEIGHT : ℚ) - bh - 80 →
      sy + bh = (VIDEO_HEIGHT : ℚ) - 80) := by
  unfold subtitle_caption_layout at h
  split at h
  · exact absurd h (by simp)
  · rw [Option.some_inj, Prod.mk.injEq] at h
    obtain ⟨hsy, hbh⟩ := h
    have hmid : ((pyInt ((VIDEO_HEIGHT : ℚ) * (1/2)) : ℤ) : ℚ) = (VIDEO_HEIGHT : ℚ) / 2 := by
      norm_num [pyInt, VIDEO_HEIGHT]
    constructor
    · rw [← hsy]
      calc (VIDEO_HEIGHT : ℚ) / 2 = _ := hmid.symm
        _ ≤ _ := le_max_right _ _
    · intro hroom
      rw [← hsy, ← hbh] at *
      rw [max_eq_left (by rw [hmid]; linarith [hroom])]
      ring

/-- Witness for C9: a single wrapped line at font size 24. -/
theorem C9_caption_vertical_clamp_witness :
    (VIDEO_HEIGHT : ℚ) / 2 ≤ 2794/5 ∧
    ((VIDEO_HEIGHT : ℚ) / 2 ≤ (VIDEO_HEIGHT : ℚ) - 406/5 - 80 →
      2794/5 + 406/5 = (VIDEO_HEIGHT : ℚ) - 80) :=
  C9_caption_vertical_clamp ["HELLO"] 24 (2794/5) (406/5) (by
    unfold subtitle_caption_layout
    rw [if_neg (by simp)]
    norm_num [pyInt, VIDEO_HEIGHT])

/-! ### Full-screen resize: `resize_video_to_fullscreen` lines 93-134 -/

/-- The pixel dimensions of a video clip. -/
structure ClipDims where
  w : ℕ
  h : ℕ
deriving DecidableEq, Repr

/-- moviepy `clip.resize(newsize=(new_w, new_h))`. -/
def clip_resize (_c : ClipDims) (new_w new_h : ℕ) : ClipDims := ⟨new_w, new_h⟩

/-- moviepy `clip.crop(x1=a, x2=b)`: keeps columns `[a, b)`. -/
def clip_crop_x (c : ClipDims) (x1 x2 : ℕ) : ClipDims := ⟨x2 - x1, c.h⟩

/-- moviepy `clip.crop(y1=a, y2=b)`: keeps rows `[a, b)`. -/
def clip_crop_y (c : ClipDims) (y1 y2 : ℕ) : ClipDims := ⟨c.w, y2 - y1⟩

/-- Line 111: `new_w = int(clip_w * scale)` with
`scale = max(target_w/clip_w, target_h/clip_h)`. -/
def scaled_w (c : ClipDims) : ℕ :=
  (pyInt ((c.w : ℚ) *
    max ((VIDEO_WIDTH : ℚ) / (c.w : ℚ)) ((VIDEO_HEIGHT : ℚ) / (c.h : ℚ)))).toNat

/-- Line 112: `new_h = int(clip_h * scale)`. -/
def scaled_h (c : ClipDims) : ℕ :=
  (pyInt ((c.h : ℚ) *
    max ((VIDEO_WIDTH : ℚ) / (c.w : ℚ)) ((VIDEO_HEIGHT : ℚ) / (c.h : ℚ)))).toNat

/-- Lines 118-121: center-crop the width down to `VIDEO_WIDTH` when the
scaled width overshoots it. -/
def crop_to_width (c : ClipDims) : ClipDims :=
  if c.w > VIDEO_WIDTH then
    clip_crop_x c ((c.w - VIDEO_WIDTH) / 2) ((c.w - VIDEO_WIDTH) / 2 + VIDEO_WIDTH)
  else c

/-- Lines 123-126: center-crop the height down to `VIDEO_HEIGHT` when the
scaled height overshoots it. -/
def crop_to_height (c : ClipDims) : ClipDims :=
  if c.h > VIDEO_HEIGHT then
    clip_crop_y c ((c.h - VIDEO_HEIGHT) / 2) ((c.h - VIDEO_HEIGHT) / 2 + VIDEO_HEIGHT)
  else c

/-- Lines 129-131: final safety resize to exact target dimensions. -/
def safety_resize (c : ClipDims) : ClipDims :=
  if c.w ≠ VIDEO_WIDTH ∨ c.h ≠ VIDEO_HEIGHT then clip_resize c VIDEO_WIDTH VIDEO_HEIGHT
  else c

/-- `VideoGenerator.resize_video_to_fullscreen` (lines 93-134): scale by
`max(target_w/w, target_h/h)`, center-crop each overscanned dimension,
then a safety resize. -/
def resize_video_to_fullscreen (c : ClipDims) : ClipDims :=
  safety_resize (crop_to_height (crop_to_width (clip_resize c (scaled_w c) (scaled_h c))))

theorem scaled_w_ge (c : ClipDims) (hw : 0 < c.w) (_hh : 0 < c.h) :
    VIDEO_WIDTH ≤ scaled_w c := by
  unfold scaled_w
  have hwq : (0 : ℚ) < (c.w : ℚ) := by exact_mod_cast hw
  have hcov : (VIDEO_WIDTH : ℚ) ≤ (c.w : ℚ) *
      max ((VIDEO_WIDTH : ℚ) / (c.w : ℚ)) ((VIDEO_HEIGHT : ℚ) / (c.h : ℚ)) := by
    calc (VIDEO_WIDTH : ℚ) = (c.w : ℚ) * ((VIDEO_WIDTH : ℚ) / (c.w : ℚ)) := by
          field_simp
      _ ≤ _ := mul_le_mul_of_nonneg_left (le_max_left _ _) hwq.le
  have hnn : (0 : ℚ) ≤ (c.w : ℚ) *
      max ((VIDEO_WIDTH : ℚ) / (c.w : ℚ)) ((VIDEO_HEIGHT : ℚ) / (c.h : ℚ)) := by
    calc (0 : ℚ) ≤ (VIDEO_WIDTH : ℚ) := by positivity
      _ ≤ _ := hcov
  rw [pyInt, if_pos hnn]
  have hfl : (VIDEO_WIDTH : ℤ) ≤ ⌊(c.w : ℚ) *
      max ((VIDEO_WIDTH : ℚ) / (c.w : ℚ)) ((VIDEO_HEIGHT : ℚ) / (c.h : ℚ))⌋ :=
    Int.le_floor.mpr (by exact_mod_cast hcov)
  exact (Int.le_toNat (le_trans (by positivity) hfl)).mpr hfl

theorem scaled_h_ge (c : ClipDims) (_hw : 0 < c.w) (hh : 0 < c.h) :
    VIDEO_HEIGHT ≤ scaled_h c := by
  unfold scaled_h
  have hhq : (0 : ℚ) < (c.h : ℚ) := by exact_mod_cast hh
  have hcov : (VIDEO_HEIGHT : ℚ) ≤ (c.h : ℚ) *
      max ((VIDEO_WIDTH : ℚ) / (c.w : ℚ)) ((VIDEO_HEIGHT : ℚ) / (c.h : ℚ)) := by
    calc (VIDEO_HEIGHT : ℚ) = (c.h : ℚ) * ((VIDEO_HEIGHT : ℚ) / (c.h : ℚ)) := by
          field_simp
      _ ≤ _ := mul_le_mul_of_nonneg_left (le_max_right _ _) hhq.le
  have hnn : (0 : ℚ) ≤ (c.h : ℚ) *
      max ((VIDEO_WIDTH : ℚ) / (c.w : ℚ)) ((VIDEO_HEIGHT : ℚ) / (c.h : ℚ)) := by
    calc (0 : ℚ) ≤ (VIDEO_HEIGHT : ℚ) := by positivity
      _ ≤ _ := hcov
  rw [pyInt, if_pos hnn]
  have hfl : (VIDEO_HEIGHT : ℤ) ≤ ⌊(c.h : ℚ) *
      max ((VIDEO_WIDTH : ℚ) / (c.w : ℚ)) ((VIDEO_HEIGHT : ℚ) / (c.h : ℚ))⌋ :=
    Int.le_floor.mpr (by exact_mod_cast hcov)
  exact (Int.le_toNat (le_trans (by positivity) hfl)).mpr hfl

theorem crop_to_width_spec (c : ClipDims) (hc : VIDEO_WIDTH ≤ c.w) :
    crop_to_width c = ⟨VIDEO_WIDTH, c.h⟩ := by
  obtain ⟨w, h⟩ := c
  unfold crop_to_width clip_crop_x
  simp only at hc ⊢
  split
  · congr 1
    omega
  · next hlt => congr 1; omega

theorem crop_to_height_spec (c : ClipDims) (hc : VIDEO_HEIGHT ≤ c.h) :
    crop_to_height c = ⟨c.w, VIDEO_HEIGHT⟩ := by
  obtain ⟨w, h⟩ := c
  unfold crop_to_height clip_crop_y
  simp only at hc ⊢
  split
  · congr 1
    omega
  · next hlt => congr 1; omega

/-- C6: for every input clip with positive width and height,
`resize_video_to_fullscreen` returns a clip of exactly
`(VIDEO_WIDTH, VIDEO_HEIGHT)`; the uniform scale factor
`max(target_w/w, target_h/h)` makes both scaled dimensions at least the
target (never smaller, never letterboxed), so the center crops alone
already reach the exact target size. -/
theorem C6_fullscreen_fill (c : ClipDims) (hw : 0 < c.w) (hh : 0 < c.h) :
    resize_video_to_fullscreen c = ⟨VIDEO_WIDTH, VIDEO_HEIGHT⟩ ∧
    VIDEO_WIDTH ≤ scaled_w c ∧ VIDEO_HEIGHT ≤ scaled_h c ∧
    crop_to_height (crop_to_width (clip_resize c (scaled_w c) (scaled_h c))) =
      ⟨VIDEO_WIDTH, VIDEO_HEIGHT⟩ := by
  have hsw := scaled_w_ge c hw hh
  have hsh := scaled_h_ge c hw hh
  have hcrop : crop_to_height (crop_to_width (clip_resize c (scaled_w c) (scaled_h c))) =
      ⟨VIDEO_WIDTH, VIDEO_HEIGHT⟩ := by
    rw [clip_resize, crop_to_width_spec ⟨scaled_w c, scaled_h c⟩ hsw]
    exact crop_to_height_spec ⟨VIDEO_WIDTH, scaled_h c⟩ hsh
  refine ⟨?_, hsw, hsh, hcrop⟩
  rw [resize_video_to_fullscreen, hcrop]
  unfold safety_resize
  rw [if_neg (by simp)]

/-- Witness for C6: a 640x480 source clip. -/
theorem C6_fullscreen_fill_witness :
    resize_video_to_fullscreen ⟨640, 480⟩ = ⟨VIDEO_WIDTH, VIDEO_HEIGHT⟩ ∧
    VIDEO_WIDTH ≤ scaled_w ⟨640, 480⟩ ∧ VIDEO_HEIGHT ≤ scaled_h ⟨640, 480⟩ ∧
    crop_to_height (crop_to_width (clip_resize ⟨640, 480⟩
      (scaled_w ⟨640, 480⟩) (scaled_h ⟨640, 480⟩))) = ⟨VIDEO_WIDTH, VIDEO_HEIGHT⟩ :=
  C6_fullscreen_fill ⟨640, 480⟩ (by decide) (by decide)

/-! ### Encoding progress logger: `EncodingProgressLogger`
(src/video_generator.py lines 582-667)

The logger's `bars_callback` receives proglog bar updates
`(attr, value)`; non-numeric values are modelled as `none`.  Wall-clock
time only affects the human-readable message (ETA text), never the
reported fraction, so messages are omitted from the model. -/

/-- The mutable fields of `EncodingProgressLogger` (lines 589-600). -/
structure LoggerState where
  total_frames : ℤ
  pass_count : ℤ
  render_pass : ℤ
  current_total : ℤ
  last_reported_pct : ℤ
  highest_overall : ℚ
  render_started : Bool
deriving DecidableEq, Repr

/-- `EncodingProgressLogger.__init__` (lines 589-600). -/
def initLoggerState (total_frames : ℤ) : LoggerState :=
  { total_frames := max total_frames 1, pass_count := 0, render_pass := 0,
    current_total := 1, last_reported_pct := -1, highest_overall := 78/100,
    render_started := false }

/-- One proglog bar update: the `attr` string and its numeric value
(`none` when the value is not an int/float). -/
structure BarSignal where
  attr : String
  value : Option ℚ

/-- `EncodingProgressLogger._report` (lines 663-667): clamp against the
highest fraction already reported, remember it, and emit it. -/
def logger_report (s : LoggerState) (overall : ℚ) : LoggerState × Option ℚ :=
  ({ s with highest_overall := max overall s.highest_overall },
   some (max overall s.highest_overall))

/-- The `attr == 'total'` branch of `bars_callback` (lines 606-621). -/
def bars_on_total (s : LoggerState) (v : ℚ) : LoggerState × Option ℚ :=
  if 500 < pyInt v then
    if s.render_pass + 1 = 1 then
      logger_report
        { s with pass_count := s.pass_count + 1, current_total := pyInt v,
                 last_reported_pct := -1, render_pass := s.render_pass + 1,
                 total_frames := pyInt v, render_started := true }
        (80/100)
    else
      ({ s with pass_count := s.pass_count + 1, current_total := pyInt v,
                last_reported_pct := -1, render_pass := s.render_pass + 1,
                total_frames := pyInt v }, none)
  else
    ({ s with pass_count := s.pass_count + 1, current_total := pyInt v,
              last_reported_pct := -1 }, none)

/-- Line 626: `pct = min(value / max(self.current_total, 1), 1.0)`. -/
def index_pct (s : LoggerState) (v : ℚ) : ℚ :=
  min (v / ((max s.current_total 1 : ℤ) : ℚ)) 1

/-- Line 627: `report_pct = int(pct * 100)`. -/
def index_report_pct (s : LoggerState) (v : ℚ) : ℤ := pyInt (index_pct s v * 100)

/-- The `attr == 'index'` branch of `bars_callback` (lines 623-661):
frame passes map `pct` into 80-92%, the audio-prep pass into 78-80%. -/
def bars_on_index (s : LoggerState) (v : ℚ) : LoggerState × Option ℚ :=
  if index_report_pct s v ≤ s.last_reported_pct then (s, none)
  else if 0 < s.render_pass then
    if index_report_pct s v % 5 ≠ 0 ∧ index_report_pct s v ≠ 100 then (s, none)
    else
      logger_report { s with last_reported_pct := index_report_pct s v }
        (if s.render_pass = 1 then 80/100 + index_pct s v * (6/100)
         else 86/100 + index_pct s v * (6/100))
  else
    if index_report_pct s v % 50 ≠ 0 then (s, none)
    else
      logger_report { s with last_reported_pct := index_report_pct s v }
        (78/100 + index_pct s v * (2/100))

/-- `EncodingProgressLogger.bars_callback` (lines 605-661), returning the
updated state and the fraction passed to the progress callback, if any. -/
def bars_callback (s : LoggerState) (sig : BarSignal) : LoggerState × Option ℚ :=
  match sig.value with
  | none => (s, none)
  | some v =>
    if sig.attr = "total" ∧ 0 < v then bars_on_total s v
    else if sig.attr = "index" then bars_on_index s v
    else (s, none)

/-- Feed a list of bar updates through the logger, collecting the
fractions handed to the progress callback in order. -/
def logger_run (s : LoggerState) : List BarSignal → List ℚ
  | [] => []
  | sig :: rest =>
    (bars_callback s sig).2.toList ++ logger_run (bars_callback s sig).1 rest

theorem logger_report_spec (s : LoggerState) (overall : ℚ) :
    s.highest_overall ≤ (logger_report s overall).1.highest_overall ∧
    ∀ r, (logger_report s overall).2 = some r →
      r = (logger_report s overall).1.highest_overall := by
  unfold logger_report
  refine ⟨le_max_right _ _, ?_⟩
  intro r hr
  simpa using hr.symm

theorem bars_on_total_spec (s : LoggerState) (v : ℚ) :
    s.highest_overall ≤ (bars_on_total s v).1.highest_overall ∧
    ∀ r, (bars_on_total s v).2 = some r →
      r = (bars_on_total s v).1.highest_overall := by
  unfold bars_on_total
  split_ifs
  · exact logger_report_spec _ _
  · exact ⟨le_refl _, by simp⟩
  · exact ⟨le_refl _, by simp⟩

theorem bars_on_index_spec (s : LoggerState) (v : ℚ) :
    s.highest_overall ≤ (bars_on_index s v).1.highest_overall ∧
    ∀ r, (bars_on_index s v).2 = some r →
      r = (bars_on_index s v).1.highest_overall := by
  unfold bars_on_index
  split_ifs
  · exact ⟨le_refl _, by simp⟩
  · exact ⟨le_refl _, by simp⟩
  · exact logger_report_spec _ _
  · exact logger_report_spec _ _
  · exact ⟨le_refl _, by simp⟩
  · exact logger_report_spec _ _

theorem bars_callback_spec (s : LoggerState) (sig : BarSignal) :
    s.highest_overall ≤ (bars_callback s sig).1.highest_overall ∧
    ∀ r, (bars_callback s sig).2 = some r →
      r = (bars_callback s sig).1.highest_overall := by
  obtain ⟨attr, val⟩ := sig
  rcases val with _ | v
  · exact ⟨le_refl _, by simp [bars_callback]⟩
  · show s.highest_overall ≤ (bars_callback s ⟨attr, some v⟩).1.highest_overall ∧ _
    have hcb : bars_callback s ⟨attr, some v⟩ =
        if attr = "total" ∧ 0 < v then bars_on_total s v
        else if attr = "index" then bars_on_index s v
        else (s, none) := rfl
    rw [hcb]
    split_ifs
    · exact bars_on_total_spec s v
    · exact bars_on_index_spec s v
    · exact ⟨le_refl _, by simp⟩

/-- Every run of the logger emits a non-decreasing report sequence, all of
whose entries are at least the starting `highest_overall`. -/
theorem logger_run_spec (sigs : List BarSignal) : ∀ s : LoggerState,
    List.Chain' (· ≤ ·) (logger_run s sigs) ∧
    ∀ r ∈ logger_run s sigs, s.highest_overall ≤ r := by
  induction sigs with
  | nil => intro s; exact ⟨List.chain'_nil, by simp [logger_run]⟩
  | cons sig rest ih =>
    intro s
    obtain ⟨hmono, hemit⟩ := bars_callback_spec s sig
    obtain ⟨ihChain, ihBound⟩ := ih (bars_callback s sig).1
    have hbound : ∀ r ∈ logger_run (bars_callback s sig).1 rest, s.highest_overall ≤ r :=
      fun r hr => le_trans hmono (ihBound r hr)
    rcases hout : (bars_callback s sig).2 with _ | r
    · constructor
      · show List.Chain' (· ≤ ·) ((bars_callback s sig).2.toList ++ _)
        rw [hout]
        simpa using ihChain
      · intro x hx
        apply hbound
        simpa [logger_run, hout] using hx
    · have hr : r = (bars_callback s sig).1.highest_overall := hemit r hout
      constructor
      · show List.Chain' (· ≤ ·) ((bars_callback s sig).2.toList ++ _)
        rw [hout]
        simp only [Option.toList_some, List.singleton_append]
        cases hrec : logger_run (bars_callback s sig).1 rest with
        | nil => simp
        | cons b tail =>
          rw [List.chain'_cons]
          refine ⟨?_, by rw [← hrec]; exact ihChain⟩
          have hb := ihBound b (by rw [hrec]; exact List.mem_cons_self _ _)
          rw [hr]
          exact hb
      · intro x hx
        simp only [logger_run, hout, Option.toList_some, List.singleton_append,
          List.mem_cons] at hx
        rcases hx with hx | hx
        · rw [hx, hr]
          exact hmono
        · exact hbound x hx

/-- C7: for every sequence of internal encoding-pass progress signals fed
to `EncodingProgressLogger`, the sequence of overall fractions it passes
to the progress callback is monotonically non-decreasing — no reported
fraction is ever below the highest fraction already reported. -/
theorem C7_progress_monotone (total_frames : ℤ) (sigs : List BarSignal) :
    List.Chain' (· ≤ ·) (logger_run (initLoggerState total_frames) sigs) :=
  (logger_run_spec sigs (initLoggerState total_frames)).1

/-! ### Background track assembly: `generate_video` lines 442-508 -/

/-- A candidate background source: whether `VideoFileClip(path)` opens
successfully, and the decoded clip's native duration (moviepy clips have
positive duration). -/
structure SourceClip where
  ok : Bool
  duration : ℚ
deriving DecidableEq, Repr

/-- The clip loading loop (lines 454-464): each path is opened inside
`try/except`; failures are skipped silently, successes are resized and
colour-graded (duration unchanged) and appended to `background_clips`. -/
def load_background_clips (sources : List SourceClip) : List ℚ :=
  (sources.filter (fun c => c.ok)).map (fun c => c.duration)

/-- Line 469: the fixed style set for the procedural fallback, one of
which is picked by `random.choice`.  Every style produces a clip of
exactly the requested duration (animated_background.py lines 109-329), so
the choice does not affect durations. -/
def styles : List String := ["gradient_flow", "particles", "aurora", "geometric_float"]

/-- Lines 467-477: when no clip survived loading, a procedural animated
background of exactly the narration duration is generated and becomes the
only element of `background_clips`. -/
def effective_clips (sources : List SourceClip) (audio_duration : ℚ) : List ℚ :=
  if load_background_clips sources = [] then [audio_duration]
  else load_background_clips sources

/-- Line 488: `time_per_clip = audio_duration / len(background_clips)`
(only reached when more than one clip is present). -/
def time_per_clip (sources : List SourceClip) (audio_duration : ℚ) : ℚ :=
  audio_duration / ((effective_clips sources audio_duration).length : ℚ)

/-- moviepy `clip.subclip(0, t)` on a clip of duration `d`. -/
def subclip_to (d t : ℚ) : ℚ := min t d

/-- Lines 492-497: a clip at least as long as its slice is trimmed to the
slice; a shorter clip is looped `int(time_per_clip / duration) + 1` whole
times and then trimmed to the slice. -/
def adjusted_clip_duration (clip_duration tpc : ℚ) : ℚ :=
  if clip_duration ≥ tpc then subclip_to clip_duration tpc
  else subclip_to (((pyInt (tpc / clip_duration) + 1 : ℤ) : ℚ) * clip_duration) tpc

/-- Lines 483-508: the duration of the assembled background track.  A
single clip is `set_duration`-ed to the narration duration; multiple
clips are each adjusted to the equal slice and concatenated in order
(`crossfadein` only ramps opacity, so the concatenated duration is the
sum of the slices), then trimmed when the total overshoots. -/
def background_track_duration (sources : List SourceClip) (audio_duration : ℚ) : ℚ :=
  if (effective_clips sources audio_duration).length = 1 then audio_duration
  else
    min (((effective_clips sources audio_duration).map
          (fun d => adjusted_clip_duration d (time_per_clip sources audio_duration))).sum)
        audio_duration

theorem adjusted_clip_duration_eq (d tpc : ℚ) (hd : 0 < d) (htpc : 0 < tpc) :
    adjusted_clip_duration d tpc = tpc := by
  unfold adjusted_clip_duration subclip_to
  split
  · next h => exact min_eq_left h
  · next h =>
    push_neg at h
    apply min_eq_left
    have hq : 0 ≤ tpc / d := le_of_lt (div_pos htpc hd)
    rw [pyInt, if_pos hq]
    have hfl : tpc / d < ((⌊tpc / d⌋ + 1 : ℤ) : ℚ) := by
      push_cast
      exact Int.lt_floor_add_one _
    calc tpc = tpc / d * d := by field_simp
      _ ≤ ((⌊tpc / d⌋ + 1 : ℤ) : ℚ) * d := by
          apply mul_le_mul_of_nonneg_right _ hd.le
          exact_mod_cast hfl.le

theorem adjusted_sum (tpc : ℚ) (htpc : 0 < tpc) :
    ∀ l : List ℚ, (∀ d ∈ l, 0 < d) →
      (l.map (fun d => adjusted_clip_duration d tpc)).sum = l.length * tpc := by
  intro l
  induction l with
  | nil => intro _; simp
  | cons d rest ih =>
    intro hpos
    rw [List.map_cons, List.sum_cons,
      adjusted_clip_duration_eq d tpc (hpos d (List.mem_cons_self d rest)) htpc,
      ih (fun x hx => hpos x (List.mem_cons_of_mem d hx)), List.length_cons]
    push_cast
    ring

theorem effective_clips_pos (sources : List SourceClip) (D : ℚ) (hD : 0 < D)
    (hdur : ∀ c ∈ sources, c.ok = true → 0 < c.duration) :
    ∀ d ∈ effective_clips sources D, 0 < d := by
  intro d hd
  unfold effective_clips at hd
  split at hd
  · rw [List.mem_singleton] at hd
    rw [hd]; exact hD
  · unfold load_background_clips at hd
    rw [List.mem_map] at hd
    obtain ⟨c, hc, hcd⟩ := hd
    rw [List.mem_filter] at hc
    rw [← hcd]
    exact hdur c hc.1 hc.2

theorem effective_clips_ne_nil (sources : List SourceClip) (D : ℚ) :
    effective_clips sources D ≠ [] := by
  unfold effective_clips
  split
  · simp
  · assumption

/-- Shared helper: the assembled background track's duration equals the
narration duration whenever it is positive and every surviving clip has
positive native duration. -/
theorem background_track_duration_eq (sources : List SourceClip) (D : ℚ) (hD : 0 < D)
    (hdur : ∀ c ∈ sources, c.ok = true → 0 < c.duration) :
    background_track_duration sources D = D := by
  unfold background_track_duration
  split
  · rfl
  · next hlen1 =>
    have hne := effective_clips_ne_nil sources D
    have hlen : 0 < (effective_clips sources D).length := List.length_pos.mpr hne
    have hlenq : (0 : ℚ) < ((effective_clips sources D).length : ℚ) := by exact_mod_cast hlen
    have htpc : 0 < time_per_clip sources D := div_pos hD hlenq
    rw [adjusted_sum _ htpc _ (effective_clips_pos sources D hD hdur)]
    unfold time_per_clip
    rw [mul_div_cancel₀ D (ne_of_gt hlenq)]
    exact min_self D

/-- C4: for every list of background sources — including one where every
clip fails to open, in which case the procedural background (style chosen
from the fixed style set) is substituted — and every `total_duration > 0`,
the assembled background track's duration equals `total_duration`
exactly. -/
theorem C4_track_duration_exact (sources : List SourceClip) (D : ℚ) (hD : 0 < D)
    (hdur : ∀ c ∈ sources, c.ok = true → 0 < c.duration) :
    background_track_duration sources D = D :=
  background_track_duration_eq sources D hD hdur

/-- Witness for C4 on the procedural-fallback path: no sources at all,
7-second narration. -/
theorem C4_track_duration_exact_witness : background_track_duration [] 7 = 7 :=
  C4_track_duration_exact [] 7 (by norm_num) (by simp)

/-- C3 counterexample: three fetched clips of native duration 10 s where
the middle one fails to open, with 9 s of narration.  The claim says the
surviving clips each keep the slice `9 / 3 = 3` and the procedural
generator fills the failed clip's slice; in the code the divisor is the
number of *surviving* clips, so each surviving clip receives `9 / 2`, and
the procedural fallback is not invoked (it triggers only when no clip at
all survives). -/
theorem C3_failed_clip_counterexample :
    load_background_clips [⟨true, 10⟩, ⟨false, 10⟩, ⟨true, 10⟩] = [10, 10] ∧
    time_per_clip [⟨true, 10⟩, ⟨false, 10⟩, ⟨true, 10⟩] 9 = 9/2 ∧
    (9/2 : ℚ) ≠ 9/3 ∧
    effective_clips [⟨true, 10⟩, ⟨false, 10⟩, ⟨true, 10⟩] 9 =
      load_background_clips [⟨true, 10⟩, ⟨false, 10⟩, ⟨true, 10⟩] := by
  refine ⟨by norm_num [load_background_clips], ?_, by norm_num, ?_⟩
  · unfold time_per_clip effective_clips load_background_clips
    rw [if_neg (by decide)]
    norm_num
  · unfold effective_clips
    rw [if_neg (by decide)]

/-- C3 amended: when an individual clip fails to open it is skipped, and
the slice count *is* reduced to the number of surviving clips — each
surviving clip receives `total_duration / surviving_N`; the procedural
generator is used only when no clip survives; the track-duration
invariant still holds. -/
theorem C3_failed_clip_amended (sources : List SourceClip) (D : ℚ) (hD : 0 < D)
    (hsurvivors : load_background_clips sources ≠ [])
    (hdur : ∀ c ∈ sources, c.ok = true → 0 < c.duration) :
    effective_clips sources D = load_background_clips sources ∧
    time_per_clip sources D = D / ((load_background_clips sources).length : ℚ) ∧
    background_track_duration sources D = D := by
  have heff : effective_clips sources D = load_background_clips sources := by
    unfold effective_clips
    exact if_neg hsurvivors
  refine ⟨heff, ?_, background_track_duration_eq sources D hD hdur⟩
  unfold time_per_clip
  rw [heff]

/-- Witness for the amended C3 at the counterexample's input. -/
theorem C3_failed_clip_amended_witness :
    effective_clips [⟨true, 10⟩, ⟨false, 10⟩, ⟨true, 10⟩] 9 =
      load_background_clips [⟨true, 10⟩, ⟨false, 10⟩, ⟨true, 10⟩] ∧
    time_per_clip [⟨true, 10⟩, ⟨false, 10⟩, ⟨true, 10⟩] 9 =
      9 / ((load_background_clips [⟨true, 10⟩, ⟨false, 10⟩, ⟨true, 10⟩]).length : ℚ) ∧
    background_track_duration [⟨true, 10⟩, ⟨false, 10⟩, ⟨true, 10⟩] 9 = 9 :=
  C3_failed_clip_amended [⟨true, 10⟩, ⟨false, 10⟩, ⟨true, 10⟩] 9 (by norm_num)
    (by simp [load_background_clips])
    (by
      intro c hc _
      fin_cases hc <;> norm_num)

/-! ### Output promotion: `generate_video` lines 731-748

The promotion of the temp encode to the final path is
`if os.path.exists(output_path): os.remove(output_path)` followed by
`shutil.move(temp_output, output_path)` (same directory, so the move is a
rename).  A crash is modelled as stopping after a prefix of these
primitive filesystem steps. -/

/-- What a path can hold at a crash point. -/
inductive FileContent where
  | oldComplete
  | newComplete
  | truncated
deriving DecidableEq, Repr

/-- The two paths involved in promotion: the final output path and the
temp encode path (`*_encoding.mp4`). -/
structure FS where
  final : Option FileContent
  temp : Option FileContent
deriving DecidableEq, Repr

/-- The primitive filesystem steps of the promotion sequence. -/
inductive FinalizeOp where
  | removeFinal
  | moveTempToFinal
deriving DecidableEq, Repr

def applyOp (fs : FS) : FinalizeOp → FS
  | .removeFinal => { fs with final := none }
  | .moveTempToFinal => { final := fs.temp, temp := none }

/-- The successful first attempt of the promotion loop (lines 732-737):
delete the existing final output, then move the temp file onto the final
path. -/
def finalizeOps : List FinalizeOp := [.removeFinal, .moveTempToFinal]

/-- The filesystem after the first `k` promotion steps: a crash at that
point leaves exactly this state. -/
def crashState (fs : FS) (k : ℕ) : FS := (finalizeOps.take k).foldl applyOp fs

/-- The situation the claim describes: a previously completed output at
the final path, and a fully written new encode at the temp path. -/
def initialFS : FS := { final := some .oldComplete, temp := some .newComplete }

/-- C2 counterexample: crashing after the first promotion step (the
`os.remove(output_path)` at line 734) but before the move completes
leaves *nothing* at the final path — the previously completed output has
been deleted, not left untouched as the claim states. -/
theorem C2_crash_deletes_previous_output :
    (crashState initialFS 1).final = none ∧
    (crashState initialFS 1).final ≠ some FileContent.oldComplete := by
  constructor <;> decide

/-- C2 amended: the previous output survives only up to the
`os.remove` step; across every crash point of the remove+rename sequence
the final path holds the previous complete output, nothing, or the new
complete output — never a partially-written file (the rename itself is
atomic; only the `shutil.copy2` fallback taken when the move keeps
failing could leave one). -/
theorem C2_promotion_states (k : ℕ) :
    ((crashState initialFS k).final = some FileContent.oldComplete ∨
     (crashState initialFS k).final = none ∨
     (crashState initialFS k).final = some FileContent.newComplete) ∧
    (crashState initialFS k).final ≠ some FileContent.truncated ∧
    (crashState initialFS 0).final = some FileContent.oldComplete := by
  match k with
  | 0 => exact ⟨Or.inl rfl, by decide, rfl⟩
  | 1 => exact ⟨Or.inr (Or.inl rfl), by decide, rfl⟩
  | n + 2 =>
    have hfull : crashState initialFS (n + 2) = crashState initialFS 2 := by
      unfold crashState finalizeOps
      rw [List.take_of_length_le (by simp), List.take_of_length_le (by simp)]
    rw [hfull]
    exact ⟨Or.inr (Or.inr rfl), by decide, rfl⟩

end Videogen
